import Mathlib

/-!
Verification development for the `dpshooter` native bridge
(`app/src/main/cpp/native-lib.cpp`).

The C++ file contains three JNI entry points:
* `Java_..._MainActivity_getOpticalFlowImage` — downsamples two grayscale
  frames, runs an external dense-optical-flow estimator, writes a
  forward-warp vertex buffer, upsamples the flow, and renders it as an
  HSV-encoded color buffer;
* `Java_..._OpenGLProcessor_getTextureCoords` — writes a UV grid;
* `Java_..._OpenGLProcessor_getTriangleIndexBuffer` — writes a triangle
  index buffer for a regular grid mesh.

Machine floats are idealized as exact rationals (ℚ).  The external
dense-flow estimator is a black box and is modelled as a function
parameter.  OpenCV primitives used by the code (`resize` with
`INTER_LINEAR`, `cartToPolar`, `normalize` with `NORM_MINMAX`,
`cvtColor` with `COLOR_HSV2BGR` / `COLOR_BGR2BGRA`, `convertTo`) are
modelled from their documented semantics, with the idealizations noted
on each definition.
-/

namespace DPShooter

/-- A row-major rational-valued raster, accessed as `g y x` (row first),
mirroring OpenCV's `Mat::at(row, col)` indexing. -/
abbrev Grid := ℕ → ℕ → ℚ

/-- A single-channel image with explicit dimensions (the JNI entry point
receives the pixel buffer together with a declared width and height). -/
structure Image where
  width : ℕ
  height : ℕ
  pix : Grid

/-- A two-channel flow field: per-pixel displacement components
`fx` and `fy`, with explicit dimensions (models a `CV_32FC2` `Mat`). -/
structure FlowField where
  width : ℕ
  height : ℕ
  fx : Grid
  fy : Grid

/-- Models the source-coordinate computation of `cv::resize` with
`INTER_LINEAR`: destination sample `x` maps to source coordinate
`(x + 1/2) * srcN / dstN - 1/2`; the two source taps and the
interpolation weight are clamped at the borders (border replication).
Returns `(x0, x1, weight)` so the sample is
`(1 - weight) * src x0 + weight * src x1`. -/
def lerpAt (srcN dstN x : ℕ) : ℕ × ℕ × ℚ :=
  let fx : ℚ := (((x : ℚ) + 1/2) * (srcN : ℚ)) / (dstN : ℚ) - 1/2
  let sx : ℤ := ⌊fx⌋
  if sx < 0 then (0, 0, 0)
  else if (srcN : ℤ) - 1 ≤ sx then (srcN - 1, srcN - 1, 0)
  else (sx.toNat, sx.toNat + 1, fx - (sx : ℚ))

/-- One-dimensional linear interpolation pass of `cv::resize`. -/
def resize1 (src : ℕ → ℚ) (srcN dstN x : ℕ) : ℚ :=
  let p := lerpAt srcN dstN x
  (1 - p.2.2) * src p.1 + p.2.2 * src p.2.1

/-- Models `cv::resize(src, dst, Size(dstW, dstH))` with the default
`INTER_LINEAR` interpolation on a single channel: a horizontal linear
pass followed by a vertical linear pass (separable bilinear
resampling).  Exact rational arithmetic idealizes the float (and, for
8-bit inputs, fixed-point) arithmetic of the library. -/
def resizeBilinear (g : Grid) (srcW srcH dstW dstH : ℕ) : Grid :=
  fun y x => resize1 (fun yy => resize1 (g yy) srcW dstW x) srcH dstH y

/-- Floor square root of a natural number (largest `k` with
`k * k ≤ n`), used to model the float `sqrt` inside `cartToPolar`. -/
def isqrt (n : ℕ) : ℕ :=
  ((List.range (n + 1)).filter (fun k => k * k ≤ n)).foldl max 0

/-- Models the float square root used by `cv::cartToPolar` for the
magnitude channel.  It is exact whenever the argument is the square of
a rational number (in particular at every value reached by the concrete
evaluations in this file); elsewhere it is a floor-style rational
approximation standing in for the inexact float result. -/
def qsqrt (q : ℚ) : ℚ :=
  if q ≤ 0 then 0 else (isqrt q.num.toNat : ℚ) / (isqrt q.den : ℚ)

/-- Models the angle channel of `cv::cartToPolar(x, y, mag, angle, true)`:
the counterclockwise angle of `(x, y)` in degrees in `[0, 360)`.
OpenCV computes it with the polynomial approximation `fastAtan2`; this
model is exact on the coordinate axes and the diagonals (the only
points where concrete evaluations in this file take place) and returns
the octant midpoint elsewhere, which no theorem below depends on. -/
def atan2deg (y x : ℚ) : ℚ :=
  if y = 0 then (if x < 0 then 180 else 0)
  else if x = 0 then (if 0 < y then 90 else 270)
  else if 0 < y then (if 0 < x then 45 else 135)
  else (if 0 < x then 315 else 225)

/-- Magnitude channel produced by `cartToPolar(flowParts[0], flowParts[1],
magnitude, angle, true)` at line 111 of `native-lib.cpp`. -/
def magnitudeGrid (f : FlowField) : Grid :=
  fun y x => qsqrt (f.fx y x * f.fx y x + f.fy y x * f.fy y x)

/-- Angle channel (in degrees) produced by the same `cartToPolar` call. -/
def angleGrid (f : FlowField) : Grid :=
  fun y x => atan2deg (f.fy y x) (f.fx y x)

/-- Row-major list of the values of a `w × h` grid, in the scan order of
OpenCV's `minMaxIdx` (used by `normalize`). -/
def gridVals (g : Grid) (w h : ℕ) : List ℚ :=
  (List.range h).flatMap fun y => (List.range w).map fun x => g y x

/-- Smallest value of a `w × h` grid (for a nonempty grid; the `g 0 0`
seed is itself a grid value whenever `1 ≤ w` and `1 ≤ h`). -/
def gridMin (g : Grid) (w h : ℕ) : ℚ :=
  (gridVals g w h).foldl min (g 0 0)

/-- Largest value of a `w × h` grid (same convention as `gridMin`). -/
def gridMax (g : Grid) (w h : ℕ) : ℚ :=
  (gridVals g w h).foldl max (g 0 0)

/-- Models `cv::normalize(magnitude, magnitude, 0, 1, NORM_MINMAX)`
(line 114): with observed extrema `smin`, `smax` it applies
`dst = src * scale + shift` where `scale = (1 - 0) / (smax - smin)`
guarded to `0` when the extrema coincide (OpenCV guards on
`smax - smin > DBL_EPSILON`, which the exact model renders as
`smin < smax`), and `shift = 0 - smin * scale`. -/
def normalizeMinMax (g : Grid) (w h : ℕ) : Grid :=
  let smin := gridMin g w h
  let smax := gridMax g w h
  let scale : ℚ := if smin < smax then 1 / (smax - smin) else 0
  let shift : ℚ := 0 - smin * scale
  fun y x => g y x * scale + shift

/-- Models the float path of `cv::cvtColor(hsv, bgr, COLOR_HSV2BGR)`
for one pixel, returning `(b, g, r)` in `[0, 1]`: the hue (degrees) is
scaled by `6/360`, wrapped into `[0, 6)` (the model writes the
library's wrap-around loops as subtraction of `6 * ⌊h6 / 6⌋`), split
into a sector and a fractional part, and the three outputs are chosen
from the four classic interpolants per sector exactly as in the
library's `sector_data` table. -/
def hsv2bgr (hdeg s v : ℚ) : ℚ × ℚ × ℚ :=
  let h6 : ℚ := hdeg * (6 / 360)
  let h6 : ℚ := h6 - 6 * (⌊h6 / 6⌋ : ℚ)
  let sector : ℤ := ⌊h6⌋
  let f : ℚ := h6 - (sector : ℚ)
  let sector : ℤ := if sector < 0 ∨ 6 ≤ sector then 0 else sector
  let f : ℚ := if ⌊h6⌋ < 0 ∨ 6 ≤ ⌊h6⌋ then 0 else f
  let tab0 := v
  let tab1 := v * (1 - s)
  let tab2 := v * (1 - s * f)
  let tab3 := v * (1 - s * (1 - f))
  if sector = 0 then (tab1, tab3, tab0)
  else if sector = 1 then (tab1, tab0, tab2)
  else if sector = 2 then (tab3, tab0, tab1)
  else if sector = 3 then (tab0, tab2, tab1)
  else if sector = 4 then (tab0, tab1, tab3)
  else (tab2, tab1, tab0)

/-- Models `convertTo(rgbImage, CV_8UC3)` applied after `rgbImage *= 255`
on one channel value: round to nearest and saturate into `[0, 255]`
(`saturate_cast<uchar>(cvRound(255 * c))`; `cvRound` ties to even,
`round` ties up — no value in this development hits a tie). -/
def toByte (q : ℚ) : ℕ :=
  (max 0 (min 255 (round (255 * q)))).toNat

/-- The four bytes of one output pixel: the HSV triple is converted to
BGR (line 128), scaled to 8 bits (lines 131–132), and extended with an
opaque alpha channel by `COLOR_BGR2BGRA` (line 136), so the bytes are
emitted in B, G, R, A order. -/
def pixelBGRA (hdeg s v : ℚ) : List ℕ :=
  [toByte (hsv2bgr hdeg s v).1, toByte (hsv2bgr hdeg s v).2.1,
   toByte (hsv2bgr hdeg s v).2.2, 255]

/-- The byte array built from a (full-resolution) flow field by lines
105–148 of `getOpticalFlowImage`: split channels, `cartToPolar`,
min-max normalization of the magnitude, HSV assembly with saturation 1,
HSV→BGR→BGRA conversion, and row-major flattening of the pixels. -/
def visualizationOfFlow (f : FlowField) : List ℕ :=
  (List.range f.height).flatMap fun y =>
    (List.range f.width).flatMap fun x =>
      pixelBGRA (angleGrid f y x) 1
        (normalizeMinMax (magnitudeGrid f) f.width f.height y x)

/-- The external dense optical-flow estimator
(`cv::optflow::createOptFlow_SparseToDense`), a black box per the spec:
given the two (downsampled) input images it fills a flow field of the
same size; only the two channel planes are produced, the dimensions
are those of the inputs. -/
def Estimator : Type :=
  Image → Image → Grid × Grid

/-- Lines 58–61: both input images are resized to `Size(w / 2, h / 2)`
(C integer division) with the default interpolation. -/
def downImage (img : Image) (w2 h2 : ℕ) : Image :=
  ⟨w2, h2, resizeBilinear img.pix img.width img.height w2 h2⟩

/-- Lines 58–67: the reduced-resolution flow field `flow_small`,
obtained by running the estimator on the two downsampled images. -/
def flowSmallOf (est : Estimator) (prevPic nextPic : Image) (w h : ℕ) :
    FlowField :=
  let img1Small := downImage prevPic (w / 2) (h / 2)
  let img2Small := downImage nextPic (w / 2) (h / 2)
  let s := est img1Small img2Small
  ⟨w / 2, h / 2, s.1, s.2⟩

/-- Lines 101–103: `flow_small` resized back to `img1.size()`, i.e. to
the full `w × h` resolution, channel by channel. -/
def flowFullOf (est : Estimator) (prevPic nextPic : Image) (w h : ℕ) :
    FlowField :=
  let fs := flowSmallOf est prevPic nextPic w h
  ⟨w, h, resizeBilinear fs.fx fs.width fs.height w h,
    resizeBilinear fs.fy fs.width fs.height w h⟩

/-- Lines 20–24 (`getFlowAt`): the flow vector at column `x`, row `y`
(`flow.at<Vec2f>(y, x)`). -/
def getFlowAt (x y : ℕ) (flow : FlowField) : ℚ × ℚ :=
  (flow.fx y x, flow.fy y x)

/-- Lines 72–96: the forward-warp vertex buffer written into the
borrowed float array.  `i` runs from `smallH - 1` down to `0`, `j` from
`0` to `smallW - 1`; the flow is looked up at row `smallH - 1 - i`
(the image/OpenGL vertical-axis mismatch), its components are divided
by the grid dimensions, and the base position uses the *integer*
halves `smallW / 2`, `smallH / 2` converted to float. -/
def vertexBuffer (flow : FlowField) : List ℚ :=
  let smallW := flow.width
  let smallH := flow.height
  let w2f : ℚ := ((smallW / 2 : ℕ) : ℚ)
  let h2f : ℚ := ((smallH / 2 : ℕ) : ℚ)
  (List.range smallH).reverse.flatMap fun i =>
    (List.range smallW).flatMap fun j =>
      let fl := getFlowAt j (smallH - 1 - i) flow
      [(j : ℚ) / w2f - 1 + fl.1 / (smallW : ℚ),
       (i : ℚ) / h2f - 1 + fl.2 / (smallH : ℚ)]

/-- Result of one call to
`Java_..._MainActivity_getOpticalFlowImage`: the contents written into
the borrowed vertex float array, and the returned byte array. -/
structure FlowResult where
  vertices : List ℚ
  bytes : List ℕ

/-- The whole `getOpticalFlowImage` entry point (lines 41–152),
parameterized by the black-box estimator: downsample both frames by
`1/2`, run the estimator, write the forward-warp vertex buffer from
`flow_small`, resize the flow back to full resolution and render it as
the BGRA visualization byte array. -/
def getOpticalFlowImage (est : Estimator) (prevPic nextPic : Image)
    (w h : ℕ) : FlowResult :=
  { vertices := vertexBuffer (flowSmallOf est prevPic nextPic w h)
    bytes := visualizationOfFlow (flowFullOf est prevPic nextPic w h) }

/-- `Java_..._OpenGLProcessor_getTextureCoords` (lines 162–175): for
`i` from `h - 1` down to `0` and `j` from `0` to `w - 1`, emit the pair
`(j / w, i / h)` into the destination float buffer. -/
def getTextureCoords (w h : ℕ) : List ℚ :=
  (List.range h).reverse.flatMap fun i =>
    (List.range w).flatMap fun j =>
      [(j : ℚ) / (w : ℚ), (i : ℚ) / (h : ℚ)]

/-- `Java_..._OpenGLProcessor_getTriangleIndexBuffer` (lines 185–217):
for every quad cell `(x, y)` with `y < h - 1`, `x < w - 1`, push the
two triangles `(topLeft, bottomLeft, topRight)` and
`(topRight, bottomLeft, bottomRight)` with vertex index
`row * w + col`. -/
def getTriangleIndexBuffer (w h : ℕ) : List ℕ :=
  (List.range (h - 1)).flatMap fun y =>
    (List.range (w - 1)).flatMap fun x =>
      let topLeft := y * w + x
      let bottomLeft := (y + 1) * w + x
      let topRight := y * w + x + 1
      let bottomRight := (y + 1) * w + x + 1
      [topLeft, bottomLeft, topRight, topRight, bottomLeft, bottomRight]

/-- The six indices pushed for the quad cell `(x, y)`. -/
def quadIndices (w y x : ℕ) : List ℕ :=
  [y * w + x, (y + 1) * w + x, y * w + x + 1,
   y * w + x + 1, (y + 1) * w + x, (y + 1) * w + x + 1]

/-- The grid cell that produced the `k`-th pair of a buffer written with
the top-down traversal (`i` from `H - 1` down to `0`, `j` left to
right): row `H - 1 - k / W`, column `k % W`. -/
def cellAt (H W k : ℕ) : ℕ × ℕ :=
  (H - 1 - k / W, k % W)

/-- The UV pair `getTextureCoords` emits for grid cell `(i, j)`. -/
def texPairAt (w h i j : ℕ) : List ℚ :=
  [(j : ℚ) / (w : ℚ), (i : ℚ) / (h : ℚ)]

/-- The vertex pair `getOpticalFlowImage` emits for grid cell `(i, j)`
of the downsampled flow field. -/
def vertexPairAt (flow : FlowField) (i j : ℕ) : List ℚ :=
  [(j : ℚ) / ((flow.width / 2 : ℕ) : ℚ) - 1
      + (getFlowAt j (flow.height - 1 - i) flow).1 / (flow.width : ℚ),
   (i : ℚ) / ((flow.height / 2 : ℕ) : ℚ) - 1
      + (getFlowAt j (flow.height - 1 - i) flow).2 / (flow.height : ℚ)]

/-- The host-managed buffers borrowed by `getOpticalFlowImage` through
`Get<T>ArrayElements`. -/
inductive BufId
  | prevPicBuf
  | nextPicBuf
  | verticesBuf
deriving DecidableEq

/-- Events on borrowed JNI buffers, in program order: acquisition
(`Get<T>ArrayElements`), a read or write through the borrowed pointer,
and release (`Release<T>ArrayElements`). -/
inductive JniEvent
  | acquire (b : BufId)
  | access (b : BufId)
  | release (b : BufId)
deriving DecidableEq

/-- The straight-line trace of borrowed-buffer events performed by
`getOpticalFlowImage` (the function has a single execution path):
lines 47–48 acquire the two byte arrays; lines 51–52 wrap them in
`Mat` headers *without copying*; lines 55–56 release them; lines 60–61
(`resize(img1, …)`, `resize(img2, …)`) read the pixel data through
those `Mat` headers; line 70 acquires the vertex float array; lines
79–96 write through it; line 99 releases it. -/
def jniTrace : List JniEvent :=
  [JniEvent.acquire BufId.prevPicBuf,
   JniEvent.acquire BufId.nextPicBuf,
   JniEvent.release BufId.prevPicBuf,
   JniEvent.release BufId.nextPicBuf,
   JniEvent.access BufId.prevPicBuf,
   JniEvent.access BufId.nextPicBuf,
   JniEvent.acquire BufId.verticesBuf,
   JniEvent.access BufId.verticesBuf,
   JniEvent.release BufId.verticesBuf]

/-- Number of `release b` events in a trace. -/
def releaseCount (t : List JniEvent) (b : BufId) : ℕ :=
  (t.filter (fun e => e = JniEvent.release b)).length

/-- Number of `acquire b` events in a trace. -/
def acquireCount (t : List JniEvent) (b : BufId) : ℕ :=
  (t.filter (fun e => e = JniEvent.acquire b)).length

/-- Scans a trace with the set of already-released buffers and checks
that no released buffer is ever accessed afterwards. -/
def noAccessAfterRelease : (BufId → Bool) → List JniEvent → Bool
  | _, [] => true
  | released, JniEvent.acquire _ :: rest => noAccessAfterRelease released rest
  | released, JniEvent.access b :: rest =>
      !released b && noAccessAfterRelease released rest
  | released, JniEvent.release b :: rest =>
      noAccessAfterRelease (fun b2 => b2 = b || released b2) rest

/-- Per the claim's words (refinement target): one output pixel in RGBA
channel order, red byte first, from the same HSV triple.  The code-side
counterpart is `pixelBGRA`. -/
def rgbaPixelSpec (hdeg s v : ℚ) : List ℕ :=
  [toByte (hsv2bgr hdeg s v).2.2, toByte (hsv2bgr hdeg s v).2.1,
   toByte (hsv2bgr hdeg s v).1, 255]

/-- A constant-valued test image. -/
def constImage (w h : ℕ) (c : ℚ) : Image :=
  ⟨w, h, fun _ _ => c⟩

/-- Estimator used for concrete evaluations: it ignores its inputs and
reports a one-pixel rightward displacement on row `0` and zero flow
elsewhere (a legal black-box output). -/
def cexEst : Estimator :=
  fun _ _ => (fun y _ => if y = 0 then 1 else 0, fun _ _ => 0)

/-- Estimator used for concrete evaluations: zero flow everywhere. -/
def zeroEst : Estimator :=
  fun _ _ => (fun _ _ => 0, fun _ _ => 0)

/-- Concrete input frame for the counterexample run: a 2×4 all-black
image. -/
def cexPrev : Image :=
  constImage 2 4 0

/-- The full-resolution flow field of the counterexample run
(`w = 2`, `h = 4`, estimator `cexEst`). -/
def cexFlowFull : FlowField :=
  flowFullOf cexEst cexPrev cexPrev 2 4

/-! ### List helper lemmas

Generic lemmas to read individual emissions of the nested
emit-into-a-flat-buffer loops back out of the flattened list. -/

theorem flatMap_drop_const {α β : Type} (f : α → List β) (c : ℕ)
    (hf : ∀ a, (f a).length = c) :
    ∀ (l : List α) (k : ℕ), (l.flatMap f).drop (c * k) = (l.drop k).flatMap f := by
  intro l
  induction l with
  | nil => intro k; simp
  | cons hd tl ih =>
    intro k
    cases k with
    | zero => simp
    | succ k =>
      rw [List.flatMap_cons,
        show c * (k + 1) = (f hd).length + c * k by rw [hf]; ring,
        List.drop_append, List.drop_succ_cons, ih]

theorem flatMap_length_const {α β : Type} (f : α → List β) (c : ℕ)
    (hf : ∀ a, (f a).length = c) :
    ∀ l : List α, (l.flatMap f).length = l.length * c := by
  intro l
  induction l with
  | nil => simp
  | cons hd tl ih =>
    rw [List.flatMap_cons, List.length_append, hf, ih, List.length_cons]
    ring

theorem drop_append_of_le {α : Type} {l₁ l₂ : List α} {m : ℕ}
    (h : m ≤ l₁.length) :
    (l₁ ++ l₂).drop m = l₁.drop m ++ l₂ := by
  rw [List.drop_append_eq_append_drop, Nat.sub_eq_zero_of_le h, List.drop_zero]

theorem grid_slice {β : Type} (F : ℕ → ℕ → List β) (c W H y x : ℕ)
    (hc : ∀ i j, (F i j).length = c) (hy : y < H) (hx : x < W) :
    (((List.range H).flatMap fun i => (List.range W).flatMap fun j => F i j).drop
        (c * (y * W + x))).take c = F y x := by
  have hG : ∀ i, ((List.range W).flatMap fun j => F i j).length = W * c := by
    intro i
    rw [flatMap_length_const _ c (fun j => hc i j), List.length_range]
  have hry : List.drop y (List.range H) = y :: List.drop (y + 1) (List.range H) := by
    rw [@List.drop_eq_getElem_cons _ y (List.range H) (by simpa using hy),
      List.getElem_range]
  have hrx : List.drop x (List.range W) = x :: List.drop (x + 1) (List.range W) := by
    rw [@List.drop_eq_getElem_cons _ x (List.range W) (by simpa using hx),
      List.getElem_range]
  rw [show c * (y * W + x) = W * c * y + c * x by ring, ← List.drop_drop,
    flatMap_drop_const _ (W * c) hG (List.range H) y, hry, List.flatMap_cons,
    drop_append_of_le (by
      rw [hG]
      calc c * x ≤ c * W := Nat.mul_le_mul_left c (le_of_lt hx)
        _ = W * c := by ring),
    flatMap_drop_const _ c (fun j => hc y j) (List.range W) x, hrx,
    List.flatMap_cons, List.append_assoc, ← hc y x, List.take_left]

theorem grid_length {β : Type} (F : ℕ → ℕ → List β) (c W H : ℕ)
    (hc : ∀ i j, (F i j).length = c) :
    ((List.range H).flatMap fun i => (List.range W).flatMap fun j => F i j).length
      = H * (W * c) := by
  rw [flatMap_length_const _ (W * c)
    (fun i => by rw [flatMap_length_const _ c (fun j => hc i j), List.length_range]),
    List.length_range]

theorem range_reverse_eq_map (H : ℕ) :
    (List.range H).reverse = (List.range H).map (fun k => H - 1 - k) := by
  conv_lhs => rw [List.range_eq_range']
  rw [List.reverse_range']
  simp

theorem revGrid_slice {β : Type} (F : ℕ → ℕ → List β) (c W H i j : ℕ)
    (hc : ∀ a b, (F a b).length = c) (hi : i < H) (hj : j < W) :
    (((List.range H).reverse.flatMap fun a =>
        (List.range W).flatMap fun b => F a b).drop
        (c * ((H - 1 - i) * W + j))).take c = F i j := by
  rw [range_reverse_eq_map, List.flatMap_map]
  have h2 : H - 1 - (H - 1 - i) = i := by omega
  have hmain := grid_slice (fun a b => F (H - 1 - a) b) c W H (H - 1 - i) j
    (fun a b => hc _ _) (by omega) hj
  simp only [h2] at hmain
  exact hmain

theorem revGrid_length {β : Type} (F : ℕ → ℕ → List β) (c W H : ℕ)
    (hc : ∀ a b, (F a b).length = c) :
    ((List.range H).reverse.flatMap fun a =>
        (List.range W).flatMap fun b => F a b).length = H * (W * c) := by
  rw [range_reverse_eq_map, List.flatMap_map]
  exact grid_length (fun a b => F (H - 1 - a) b) c W H (fun a b => hc _ _)

/-! ### Fold helper lemmas for running minima and maxima -/

theorem foldl_min_le_init {α : Type} [LinearOrder α] :
    ∀ (l : List α) (i : α), l.foldl min i ≤ i := by
  intro l
  induction l with
  | nil => intro i; simp
  | cons hd tl ih =>
    intro i
    calc (hd :: tl).foldl min i = tl.foldl min (min i hd) := rfl
      _ ≤ min i hd := ih _
      _ ≤ i := min_le_left _ _

theorem foldl_min_le_of_mem {α : Type} [LinearOrder α] :
    ∀ (l : List α) (i a : α), a ∈ l → l.foldl min i ≤ a := by
  intro l
  induction l with
  | nil => intro i a ha; simp at ha
  | cons hd tl ih =>
    intro i a ha
    rcases List.mem_cons.mp ha with h | h
    · subst h
      calc (a :: tl).foldl min i = tl.foldl min (min i a) := rfl
        _ ≤ min i a := foldl_min_le_init _ _
        _ ≤ a := min_le_right _ _
    · exact ih (min i hd) a h

theorem foldl_min_mem_or_init {α : Type} [LinearOrder α] :
    ∀ (l : List α) (i : α), l.foldl min i = i ∨ l.foldl min i ∈ l := by
  intro l
  induction l with
  | nil => intro i; left; rfl
  | cons hd tl ih =>
    intro i
    rcases ih (min i hd) with h | h
    · rcases min_choice i hd with hm | hm
      · left
        show tl.foldl min (min i hd) = i
        rw [h, hm]
      · right
        show tl.foldl min (min i hd) ∈ hd :: tl
        rw [h, hm]
        exact List.mem_cons_self hd tl
    · right
      exact List.mem_cons_of_mem hd h

theorem le_foldl_min {α : Type} [LinearOrder α] :
    ∀ (l : List α) (i b : α), b ≤ i → (∀ a ∈ l, b ≤ a) → b ≤ l.foldl min i := by
  intro l
  induction l with
  | nil => intro i b hb _; simpa using hb
  | cons hd tl ih =>
    intro i b hb h
    exact ih (min i hd) b (le_min hb (h hd (List.mem_cons_self hd tl)))
      (fun a ha => h a (List.mem_cons_of_mem hd ha))

theorem foldl_min_const {α : Type} [LinearOrder α] :
    ∀ (l : List α) (i : α), (∀ a ∈ l, a = i) → l.foldl min i = i := by
  intro l
  induction l with
  | nil => intro i _; rfl
  | cons hd tl ih =>
    intro i h
    show tl.foldl min (min i hd) = i
    rw [h hd (List.mem_cons_self hd tl), min_self]
    exact ih i (fun a ha => h a (List.mem_cons_of_mem hd ha))

theorem init_le_foldl_max {α : Type} [LinearOrder α] :
    ∀ (l : List α) (i : α), i ≤ l.foldl max i := by
  intro l
  induction l with
  | nil => intro i; simp
  | cons hd tl ih =>
    intro i
    calc i ≤ max i hd := le_max_left _ _
      _ ≤ tl.foldl max (max i hd) := ih _
      _ = (hd :: tl).foldl max i := rfl

theorem mem_le_foldl_max {α : Type} [LinearOrder α] :
    ∀ (l : List α) (i a : α), a ∈ l → a ≤ l.foldl max i := by
  intro l
  induction l with
  | nil => intro i a ha; simp at ha
  | cons hd tl ih =>
    intro i a ha
    rcases List.mem_cons.mp ha with h | h
    · subst h
      calc a ≤ max i a := le_max_right _ _
        _ ≤ tl.foldl max (max i a) := init_le_foldl_max _ _
        _ = (a :: tl).foldl max i := rfl
    · exact ih (max i hd) a h

theorem foldl_max_mem_or_init {α : Type} [LinearOrder α] :
    ∀ (l : List α) (i : α), l.foldl max i = i ∨ l.foldl max i ∈ l := by
  intro l
  induction l with
  | nil => intro i; left; rfl
  | cons hd tl ih =>
    intro i
    rcases ih (max i hd) with h | h
    · rcases max_choice i hd with hm | hm
      · left
        show tl.foldl max (max i hd) = i
        rw [h, hm]
      · right
        show tl.foldl max (max i hd) ∈ hd :: tl
        rw [h, hm]
        exact List.mem_cons_self hd tl
    · right
      exact List.mem_cons_of_mem hd h

theorem foldl_max_le {α : Type} [LinearOrder α] :
    ∀ (l : List α) (i b : α), i ≤ b → (∀ a ∈ l, a ≤ b) → l.foldl max i ≤ b := by
  intro l
  induction l with
  | nil => intro i b hb _; simpa using hb
  | cons hd tl ih =>
    intro i b hb h
    exact ih (max i hd) b (max_le hb (h hd (List.mem_cons_self hd tl)))
      (fun a ha => h a (List.mem_cons_of_mem hd ha))

theorem foldl_max_const {α : Type} [LinearOrder α] :
    ∀ (l : List α) (i : α), (∀ a ∈ l, a = i) → l.foldl max i = i := by
  intro l
  induction l with
  | nil => intro i _; rfl
  | cons hd tl ih =>
    intro i h
    show tl.foldl max (max i hd) = i
    rw [h hd (List.mem_cons_self hd tl), max_self]
    exact ih i (fun a ha => h a (List.mem_cons_of_mem hd ha))

/-! ### Grid extrema and normalization lemmas -/

theorem mem_gridVals (g : Grid) {w h y x : ℕ} (hy : y < h) (hx : x < w) :
    g y x ∈ gridVals g w h := by
  simp only [gridVals, List.mem_flatMap, List.mem_map, List.mem_range]
  exact ⟨y, hy, x, hx, rfl⟩

theorem gridVals_spec (g : Grid) {w h : ℕ} {q : ℚ} (hq : q ∈ gridVals g w h) :
    ∃ y, y < h ∧ ∃ x, x < w ∧ g y x = q := by
  simpa only [gridVals, List.mem_flatMap, List.mem_map, List.mem_range] using hq

theorem gridMin_le (g : Grid) {w h y x : ℕ} (hy : y < h) (hx : x < w) :
    gridMin g w h ≤ g y x :=
  foldl_min_le_of_mem _ _ _ (mem_gridVals g hy hx)

theorem le_gridMax (g : Grid) {w h y x : ℕ} (hy : y < h) (hx : x < w) :
    g y x ≤ gridMax g w h :=
  mem_le_foldl_max _ _ _ (mem_gridVals g hy hx)

theorem gridMin_attained (g : Grid) {w h : ℕ} (hw : 1 ≤ w) (hh : 1 ≤ h) :
    ∃ y, y < h ∧ ∃ x, x < w ∧ g y x = gridMin g w h := by
  rcases foldl_min_mem_or_init (gridVals g w h) (g 0 0) with h0 | h0
  · exact ⟨0, hh, 0, hw, h0.symm⟩
  · exact gridVals_spec g h0

theorem gridMax_attained (g : Grid) {w h : ℕ} (hw : 1 ≤ w) (hh : 1 ≤ h) :
    ∃ y, y < h ∧ ∃ x, x < w ∧ g y x = gridMax g w h := by
  rcases foldl_max_mem_or_init (gridVals g w h) (g 0 0) with h0 | h0
  · exact ⟨0, hh, 0, hw, h0.symm⟩
  · exact gridVals_spec g h0

theorem gridMin_le_gridMax (g : Grid) {w h : ℕ} (hw : 1 ≤ w) (hh : 1 ≤ h) :
    gridMin g w h ≤ gridMax g w h :=
  le_trans (gridMin_le g hh hw) (le_gridMax g hh hw)

theorem normalize_eq_of_lt {g : Grid} {w h : ℕ}
    (hlt : gridMin g w h < gridMax g w h) (y x : ℕ) :
    normalizeMinMax g w h y x
      = (g y x - gridMin g w h) / (gridMax g w h - gridMin g w h) := by
  have hne : gridMax g w h - gridMin g w h ≠ 0 := ne_of_gt (sub_pos.mpr hlt)
  simp only [normalizeMinMax, if_pos hlt]
  field_simp
  ring

theorem normalize_eq_of_const {g : Grid} {w h : ℕ}
    (hconst : ¬ gridMin g w h < gridMax g w h) (y x : ℕ) :
    normalizeMinMax g w h y x = 0 := by
  simp only [normalizeMinMax, if_neg hconst]
  ring

theorem gridMin_const {g : Grid} {w h : ℕ}
    (hc : ∀ y, y < h → ∀ x, x < w → g y x = g 0 0) :
    gridMin g w h = g 0 0 := by
  apply foldl_min_const
  intro a ha
  obtain ⟨y, hy, x, hx, hval⟩ := gridVals_spec g ha
  rw [← hval]
  exact hc y hy x hx

theorem gridMax_const {g : Grid} {w h : ℕ}
    (hc : ∀ y, y < h → ∀ x, x < w → g y x = g 0 0) :
    gridMax g w h = g 0 0 := by
  apply foldl_max_const
  intro a ha
  obtain ⟨y, hy, x, hx, hval⟩ := gridVals_spec g ha
  rw [← hval]
  exact hc y hy x hx

/-! ### Square-root evaluation lemmas -/

theorem isqrt_sq (m : ℕ) : isqrt (m * m) = m := by
  unfold isqrt
  apply le_antisymm
  · apply foldl_max_le
    · exact Nat.zero_le m
    · intro a ha
      rcases List.mem_filter.mp ha with ⟨_, hle⟩
      exact Nat.mul_self_le_mul_self_iff.mp (by simpa using hle)
  · apply mem_le_foldl_max
    rw [List.mem_filter]
    constructor
    · rw [List.mem_range]
      have : m ≤ m * m := by
        rcases Nat.eq_zero_or_pos m with h0 | h0
        · simp [h0]
        · calc m = m * 1 := by ring
            _ ≤ m * m := Nat.mul_le_mul_left m h0
      omega
    · simp

theorem qsqrt_nonneg (q : ℚ) : 0 ≤ qsqrt q := by
  unfold qsqrt
  split
  · exact le_refl 0
  · positivity

theorem qsqrt_eval (a q : ℚ) (ha : 0 ≤ a) (hq : q = a * a) : qsqrt q = a := by
  subst hq
  rcases eq_or_lt_of_le ha with h0 | h0
  · rw [← h0]
    norm_num [qsqrt]
  · have hpos : 0 < a * a := mul_pos h0 h0
    rw [qsqrt, if_neg (not_le.mpr hpos), Rat.mul_self_num, Rat.mul_self_den]
    have hna : 0 ≤ a.num := Rat.num_nonneg.mpr ha
    have htn : (a.num * a.num).toNat = a.num.toNat * a.num.toNat := by
      rw [← Int.toNat_of_nonneg hna]
      rw [← Nat.cast_mul, Int.toNat_natCast, Int.toNat_natCast]
    rw [htn, isqrt_sq, isqrt_sq]
    have hcast : ((a.num.toNat : ℕ) : ℚ) = ((a.num : ℤ) : ℚ) := by
      exact_mod_cast congrArg (fun z : ℤ => (z : ℚ)) (Int.toNat_of_nonneg hna)
    rw [hcast, Rat.num_div_den]

theorem magnitudeGrid_nonneg (f : FlowField) (y x : ℕ) :
    0 ≤ magnitudeGrid f y x :=
  qsqrt_nonneg _

/-! ### Per-pixel slice lemmas for the emitted buffers -/

theorem visualization_slice (f : FlowField) (y x : ℕ)
    (hy : y < f.height) (hx : x < f.width) :
    ((visualizationOfFlow f).drop (4 * (y * f.width + x))).take 4
      = pixelBGRA (angleGrid f y x) 1
          (normalizeMinMax (magnitudeGrid f) f.width f.height y x) :=
  grid_slice
    (fun y x => pixelBGRA (angleGrid f y x) 1
      (normalizeMinMax (magnitudeGrid f) f.width f.height y x))
    4 f.width f.height y x (fun _ _ => rfl) hy hx

theorem visualization_length (f : FlowField) :
    (visualizationOfFlow f).length = f.height * (f.width * 4) :=
  grid_length
    (fun y x => pixelBGRA (angleGrid f y x) 1
      (normalizeMinMax (magnitudeGrid f) f.width f.height y x))
    4 f.width f.height (fun _ _ => rfl)

theorem textureCoords_slice (w h i j : ℕ) (hi : i < h) (hj : j < w) :
    ((getTextureCoords w h).drop (2 * ((h - 1 - i) * w + j))).take 2
      = texPairAt w h i j :=
  revGrid_slice (fun i j => texPairAt w h i j) 2 w h i j (fun _ _ => rfl) hi hj

theorem textureCoords_length (w h : ℕ) :
    (getTextureCoords w h).length = h * (w * 2) :=
  revGrid_length (fun i j => texPairAt w h i j) 2 w h (fun _ _ => rfl)

theorem vertexBuffer_slice (flow : FlowField) (i j : ℕ)
    (hi : i < flow.height) (hj : j < flow.width) :
    ((vertexBuffer flow).drop (2 * ((flow.height - 1 - i) * flow.width + j))).take 2
      = vertexPairAt flow i j :=
  revGrid_slice (fun i j => vertexPairAt flow i j) 2 flow.width flow.height i j
    (fun _ _ => rfl) hi hj

theorem vertexBuffer_length (flow : FlowField) :
    (vertexBuffer flow).length = flow.height * (flow.width * 2) :=
  revGrid_length (fun i j => vertexPairAt flow i j) 2 flow.width flow.height
    (fun _ _ => rfl)

/-! ### Pixel-level evaluation lemmas -/

theorem hsv2bgr_v0 (hdeg s : ℚ) : hsv2bgr hdeg s 0 = (0, 0, 0) := by
  simp [hsv2bgr]

theorem toByte_zero : toByte 0 = 0 := by
  norm_num [toByte]

theorem pixelBGRA_v0 (hdeg s : ℚ) : pixelBGRA hdeg s 0 = [0, 0, 0, 255] := by
  simp only [pixelBGRA, hsv2bgr_v0, toByte_zero]

theorem hsv_red : hsv2bgr 0 1 1 = (0, 0, 1) := by
  norm_num [hsv2bgr]

theorem pixel_red : pixelBGRA 0 1 1 = [0, 0, 255, 255] := by
  simp only [pixelBGRA, hsv_red]
  norm_num [toByte, round_eq, min_def, max_def]
  rfl

theorem pixel_red_rgba : rgbaPixelSpec 0 1 1 = [255, 0, 0, 255] := by
  simp only [rgbaPixelSpec, hsv_red]
  norm_num [toByte, round_eq, min_def, max_def]
  rfl

/-! ### Concrete interpolation-coefficient evaluations -/

theorem lerpAt_1_2_0 : lerpAt 1 2 0 = (0, 0, 0) := by
  norm_num [lerpAt]

theorem lerpAt_1_2_1 : lerpAt 1 2 1 = (0, 0, 0) := by
  norm_num [lerpAt]

theorem lerpAt_2_4_0 : lerpAt 2 4 0 = (0, 0, 0) := by
  norm_num [lerpAt]

theorem lerpAt_2_4_1 : lerpAt 2 4 1 = (0, 1, 1/4) := by
  norm_num [lerpAt]

theorem lerpAt_2_4_2 : lerpAt 2 4 2 = (0, 1, 3/4) := by
  norm_num [lerpAt]

theorem lerpAt_2_4_3 : lerpAt 2 4 3 = (1, 1, 0) := by
  norm_num [lerpAt]

/-! ### Evaluation of the counterexample flow field -/

theorem cexFy_eval (y x : ℕ) : cexFlowFull.fy y x = 0 := by
  simp [cexFlowFull, flowFullOf, flowSmallOf, cexEst, resizeBilinear, resize1]

theorem cexFx_eval (x : ℕ) (hx : x < 2) :
    cexFlowFull.fx 0 x = 1 ∧ cexFlowFull.fx 1 x = 3/4 ∧
      cexFlowFull.fx 2 x = 1/4 ∧ cexFlowFull.fx 3 x = 0 := by
  interval_cases x <;>
    refine ⟨?_, ?_, ?_, ?_⟩ <;>
      simp [cexFlowFull, flowFullOf, flowSmallOf, cexEst, resizeBilinear, resize1,
        lerpAt_1_2_0, lerpAt_1_2_1, lerpAt_2_4_0, lerpAt_2_4_1, lerpAt_2_4_2,
        lerpAt_2_4_3] <;>
      norm_num

theorem cexMag_eval (x : ℕ) (hx : x < 2) :
    magnitudeGrid cexFlowFull 0 x = 1 ∧ magnitudeGrid cexFlowFull 1 x = 3/4 ∧
      magnitudeGrid cexFlowFull 2 x = 1/4 ∧ magnitudeGrid cexFlowFull 3 x = 0 := by
  obtain ⟨h0, h1, h2, h3⟩ := cexFx_eval x hx
  refine ⟨?_, ?_, ?_, ?_⟩
  · show qsqrt (cexFlowFull.fx 0 x * cexFlowFull.fx 0 x
        + cexFlowFull.fy 0 x * cexFlowFull.fy 0 x) = 1
    rw [h0, cexFy_eval]
    exact qsqrt_eval 1 _ (by norm_num) (by norm_num)
  · show qsqrt (cexFlowFull.fx 1 x * cexFlowFull.fx 1 x
        + cexFlowFull.fy 1 x * cexFlowFull.fy 1 x) = 3/4
    rw [h1, cexFy_eval]
    exact qsqrt_eval (3/4) _ (by norm_num) (by norm_num)
  · show qsqrt (cexFlowFull.fx 2 x * cexFlowFull.fx 2 x
        + cexFlowFull.fy 2 x * cexFlowFull.fy 2 x) = 1/4
    rw [h2, cexFy_eval]
    exact qsqrt_eval (1/4) _ (by norm_num) (by norm_num)
  · show qsqrt (cexFlowFull.fx 3 x * cexFlowFull.fx 3 x
        + cexFlowFull.fy 3 x * cexFlowFull.fy 3 x) = 0
    rw [h3, cexFy_eval]
    exact qsqrt_eval 0 _ (by norm_num) (by norm_num)

theorem cexMag_le_one (y x : ℕ) (hy : y < 4) (hx : x < 2) :
    magnitudeGrid cexFlowFull y x ≤ 1 := by
  obtain ⟨h0, h1, h2, h3⟩ := cexMag_eval x hx
  interval_cases y <;> simp only [h0, h1, h2, h3] <;> norm_num

theorem cexGridMin : gridMin (magnitudeGrid cexFlowFull) 2 4 = 0 := by
  apply le_antisymm
  · calc gridMin (magnitudeGrid cexFlowFull) 2 4
        ≤ magnitudeGrid cexFlowFull 3 0 :=
          gridMin_le _ (by norm_num) (by norm_num)
      _ = 0 := (cexMag_eval 0 (by norm_num)).2.2.2
  · apply le_foldl_min
    · exact magnitudeGrid_nonneg _ _ _
    · intro a ha
      obtain ⟨y, hy, x, hx, hval⟩ := gridVals_spec _ ha
      rw [← hval]
      exact magnitudeGrid_nonneg _ _ _

theorem cexGridMax : gridMax (magnitudeGrid cexFlowFull) 2 4 = 1 := by
  apply le_antisymm
  · apply foldl_max_le
    · exact cexMag_le_one 0 0 (by norm_num) (by norm_num)
    · intro a ha
      obtain ⟨y, hy, x, hx, hval⟩ := gridVals_spec _ ha
      rw [← hval]
      exact cexMag_le_one y x hy hx
  · calc (1:ℚ) = magnitudeGrid cexFlowFull 0 0 :=
        ((cexMag_eval 0 (by norm_num)).1).symm
      _ ≤ gridMax (magnitudeGrid cexFlowFull) 2 4 :=
        le_gridMax _ (by norm_num) (by norm_num)

theorem cexNorm00 :
    normalizeMinMax (magnitudeGrid cexFlowFull) 2 4 0 0 = 1 := by
  rw [normalize_eq_of_lt (by rw [cexGridMin, cexGridMax]; norm_num) 0 0,
    cexGridMin, cexGridMax, (cexMag_eval 0 (by norm_num)).1]
  norm_num

theorem cexAngle00 : angleGrid cexFlowFull 0 0 = 0 := by
  show atan2deg (cexFlowFull.fy 0 0) (cexFlowFull.fx 0 0) = 0
  rw [cexFy_eval, (cexFx_eval 0 (by norm_num)).1]
  norm_num [atan2deg]

/-! ### Claim theorems -/

/-- C2: `getTriangleIndexBuffer` iterates the (W−1)×(H−1) quad cells
row-major and emits for each quad exactly the six indices (topLeft,
bottomLeft, topRight, topRight, bottomLeft, bottomRight) with vertex
index `row * W + col`; the output length is exactly 6×(W−1)×(H−1),
every emitted index lies in [0, W×H), and the 4×4 grid yields exactly
54 indices beginning 0,4,1,1,4,5, 1,5,2,2,5,6. -/
theorem C2_triangleIndexBuffer :
    (∀ w h y x : ℕ, 1 ≤ w → 1 ≤ h → y < h - 1 → x < w - 1 →
      ((getTriangleIndexBuffer w h).drop (6 * (y * (w - 1) + x))).take 6
        = quadIndices w y x) ∧
    (∀ w h : ℕ, 1 ≤ w → 1 ≤ h →
      (getTriangleIndexBuffer w h).length = 6 * ((w - 1) * (h - 1))) ∧
    (∀ w h : ℕ, ∀ idx ∈ getTriangleIndexBuffer w h, idx < w * h) ∧
    (getTriangleIndexBuffer 4 4).length = 54 ∧
    (getTriangleIndexBuffer 4 4).take 12 = [0, 4, 1, 1, 4, 5, 1, 5, 2, 2, 5, 6] := by
  refine ⟨?_, ?_, ?_, by decide, by decide⟩
  · intro w h y x hw hh hy hx
    exact grid_slice (fun y x => quadIndices w y x) 6 (w - 1) (h - 1) y x
      (fun _ _ => rfl) hy hx
  · intro w h hw hh
    calc (getTriangleIndexBuffer w h).length
        = (h - 1) * ((w - 1) * 6) :=
          grid_length (fun y x => quadIndices w y x) 6 (w - 1) (h - 1)
            (fun _ _ => rfl)
      _ = 6 * ((w - 1) * (h - 1)) := by ring
  · intro w h idx hidx
    simp only [getTriangleIndexBuffer, List.mem_flatMap, List.mem_range,
      List.mem_cons, List.not_mem_nil, or_false] at hidx
    obtain ⟨y, hy, x, hx, hmem⟩ := hidx
    have e1 : (y + 1) * w = y * w + w := by ring
    have hmul : (y + 1) * w ≤ (h - 1) * w := Nat.mul_le_mul_right w (by omega)
    have hfin : (h - 1) * w + w = h * w := by
      calc (h - 1) * w + w = ((h - 1) + 1) * w := by ring
        _ = h * w := by rw [Nat.sub_add_cancel (by omega)]
    have hcomm : h * w = w * h := Nat.mul_comm h w
    rcases hmem with rfl | rfl | rfl | rfl | rfl | rfl <;> omega

/-- Witness for C2 at the 4×4 grid, quad cell (x, y) = (1, 0). -/
theorem C2_triangleIndexBuffer_witness :
    ((1:ℕ) ≤ 4 ∧ (0:ℕ) < 4 - 1 ∧ (1:ℕ) < 4 - 1) ∧
    ((getTriangleIndexBuffer 4 4).drop (6 * (0 * (4 - 1) + 1))).take 6
      = quadIndices 4 0 1 :=
  ⟨⟨by decide, by decide, by decide⟩,
    C2_triangleIndexBuffer.1 4 4 0 1 (by decide) (by decide) (by decide) (by decide)⟩

/-- C3: the vertex generator inside `getOpticalFlowImage` emits, for
output row `i` from `smallH − 1` down to `0` and column `j` left to
right, the vertex
(j/(smallW/2) − 1 + flow(j, smallH−1−i).x/smallW,
 i/(smallH/2) − 1 + flow(j, smallH−1−i).y/smallH): the flow lookup
inverts the row index and no scaling beyond the grid-dimension
normalization is applied.  The hypotheses `2 ≤ smallW`, `2 ≤ smallH`
keep the integer half-extents nonzero so every float division the code
performs is by a nonzero value and the rational model is exact. -/
theorem C3_vertexBuffer (flow : FlowField) (i j : ℕ)
    (h2w : 2 ≤ flow.width) (h2h : 2 ≤ flow.height)
    (hi : i < flow.height) (hj : j < flow.width) :
    (vertexBuffer flow).length = flow.height * (flow.width * 2) ∧
    ((vertexBuffer flow).drop
        (2 * ((flow.height - 1 - i) * flow.width + j))).take 2
      = [(j : ℚ) / ((flow.width / 2 : ℕ) : ℚ) - 1
            + flow.fx (flow.height - 1 - i) j / (flow.width : ℚ),
         (i : ℚ) / ((flow.height / 2 : ℕ) : ℚ) - 1
            + flow.fy (flow.height - 1 - i) j / (flow.height : ℚ)] := by
  refine ⟨vertexBuffer_length flow, ?_⟩
  rw [vertexBuffer_slice flow i j hi hj]
  rfl

/-- Witness for C3 on the concrete 2×4 downsampled grid at cell
(i, j) = (1, 0). -/
theorem C3_vertexBuffer_witness :
    ((2:ℕ) ≤ cexFlowFull.width ∧ (2:ℕ) ≤ cexFlowFull.height ∧
      (1:ℕ) < cexFlowFull.height ∧ (0:ℕ) < cexFlowFull.width) ∧
    ((vertexBuffer cexFlowFull).length
        = cexFlowFull.height * (cexFlowFull.width * 2) ∧
      ((vertexBuffer cexFlowFull).drop
          (2 * ((cexFlowFull.height - 1 - 1) * cexFlowFull.width + 0))).take 2
        = [((0:ℕ) : ℚ) / ((cexFlowFull.width / 2 : ℕ) : ℚ) - 1
              + cexFlowFull.fx (cexFlowFull.height - 1 - 1) 0
                / (cexFlowFull.width : ℚ),
           ((1:ℕ) : ℚ) / ((cexFlowFull.height / 2 : ℕ) : ℚ) - 1
              + cexFlowFull.fy (cexFlowFull.height - 1 - 1) 0
                / (cexFlowFull.height : ℚ)]) :=
  ⟨⟨by decide, by decide, by decide, by decide⟩,
    C3_vertexBuffer cexFlowFull 1 0 (by decide) (by decide) (by decide) (by decide)⟩

/-- C4: `getTextureCoords` writes the pairs (u, v) = (x/W, y/H)
row-major, traversing rows with y from H−1 down to 0 (bottom of the
image to the top) and x from 0 to W−1 within each row, and every
emitted u and v value lies in [0, 1]. -/
theorem C4_textureCoords (w h i j : ℕ) (hw : 1 ≤ w) (hh : 1 ≤ h)
    (hi : i < h) (hj : j < w) :
    (getTextureCoords w h).length = h * (w * 2) ∧
    ((getTextureCoords w h).drop (2 * ((h - 1 - i) * w + j))).take 2
      = [(j : ℚ) / (w : ℚ), (i : ℚ) / (h : ℚ)] ∧
    ∀ q ∈ getTextureCoords w h, 0 ≤ q ∧ q ≤ 1 := by
  refine ⟨textureCoords_length w h, ?_, ?_⟩
  · rw [textureCoords_slice w h i j hi hj]
    rfl
  · intro q hq
    simp only [getTextureCoords, List.mem_flatMap, List.mem_reverse,
      List.mem_range, List.mem_cons, List.not_mem_nil, or_false] at hq
    obtain ⟨a, ha, b, hb, hq⟩ := hq
    rcases hq with rfl | rfl
    · refine ⟨by positivity, ?_⟩
      rw [div_le_one (by exact_mod_cast Nat.pos_of_ne_zero (by omega))]
      exact_mod_cast Nat.le_of_lt hb
    · refine ⟨by positivity, ?_⟩
      rw [div_le_one (by exact_mod_cast Nat.pos_of_ne_zero (by omega))]
      exact_mod_cast Nat.le_of_lt ha

/-- Witness for C4 on a 2×2 grid at cell (i, j) = (0, 1). -/
theorem C4_textureCoords_witness :
    ((1:ℕ) ≤ 2 ∧ (0:ℕ) < 2 ∧ (1:ℕ) < 2) ∧
    ((getTextureCoords 2 2).length = 2 * (2 * 2) ∧
      ((getTextureCoords 2 2).drop (2 * ((2 - 1 - 0) * 2 + 1))).take 2
        = [((1:ℕ) : ℚ) / ((2:ℕ) : ℚ), ((0:ℕ) : ℚ) / ((2:ℕ) : ℚ)] ∧
      ∀ q ∈ getTextureCoords 2 2, 0 ≤ q ∧ q ≤ 1) :=
  ⟨⟨by decide, by decide, by decide⟩,
    C4_textureCoords 2 2 0 1 (by decide) (by decide) (by decide) (by decide)⟩

/-- C7: for the same grid dimensions the UV buffer written by
`getTextureCoords` and the vertex buffer written by
`getOpticalFlowImage` are index-aligned — the k-th pair of each buffer
is generated from the same grid cell (row, column), because both
traverse rows from the highest row index down to 0 and columns left to
right. -/
theorem C7_buffersAligned (flow : FlowField) (k : ℕ)
    (hk : k < flow.width * flow.height) :
    ((getTextureCoords flow.width flow.height).drop (2 * k)).take 2
      = texPairAt flow.width flow.height
          (cellAt flow.height flow.width k).1
          (cellAt flow.height flow.width k).2 ∧
    ((vertexBuffer flow).drop (2 * k)).take 2
      = vertexPairAt flow
          (cellAt flow.height flow.width k).1
          (cellAt flow.height flow.width k).2 := by
  have hW : 0 < flow.width := by
    rcases Nat.eq_zero_or_pos flow.width with h0 | h0
    · rw [h0] at hk; simp at hk
    · exact h0
  have hH : 0 < flow.height := by
    rcases Nat.eq_zero_or_pos flow.height with h0 | h0
    · rw [h0] at hk; simp at hk
    · exact h0
  have hx : k % flow.width < flow.width := Nat.mod_lt _ hW
  have hyd : k / flow.width < flow.height := by
    rw [Nat.div_lt_iff_lt_mul hW]
    calc k < flow.width * flow.height := hk
      _ = flow.height * flow.width := Nat.mul_comm _ _
  have harith : ∀ H d : ℕ, d < H → H - 1 - (H - 1 - d) = d := by
    intro H d hdH
    omega
  have harith2 : ∀ H d : ℕ, 0 < H → H - 1 - d < H := by
    intro H d hH0
    omega
  have hi1 : (cellAt flow.height flow.width k).1 < flow.height := by
    show flow.height - 1 - k / flow.width < flow.height
    exact harith2 flow.height (k / flow.width) hH
  have hoff : (flow.height - 1 - (cellAt flow.height flow.width k).1)
      * flow.width + (cellAt flow.height flow.width k).2 = k := by
    show (flow.height - 1 - (flow.height - 1 - k / flow.width)) * flow.width
        + k % flow.width = k
    rw [harith flow.height (k / flow.width) hyd, Nat.mul_comm]
    exact Nat.div_add_mod k flow.width
  constructor
  · have hs := textureCoords_slice flow.width flow.height
      (cellAt flow.height flow.width k).1 (cellAt flow.height flow.width k).2
      hi1 hx
    rw [hoff] at hs
    exact hs
  · have hs := vertexBuffer_slice flow
      (cellAt flow.height flow.width k).1 (cellAt flow.height flow.width k).2
      hi1 hx
    rw [hoff] at hs
    exact hs

/-- Witness for C7 on the concrete 2×4 flow field at flat index
k = 3. -/
theorem C7_buffersAligned_witness :
    ((3:ℕ) < cexFlowFull.width * cexFlowFull.height) ∧
    (((getTextureCoords cexFlowFull.width cexFlowFull.height).drop (2 * 3)).take 2
      = texPairAt cexFlowFull.width cexFlowFull.height
          (cellAt cexFlowFull.height cexFlowFull.width 3).1
          (cellAt cexFlowFull.height cexFlowFull.width 3).2 ∧
    ((vertexBuffer cexFlowFull).drop (2 * 3)).take 2
      = vertexPairAt cexFlowFull
          (cellAt cexFlowFull.height cexFlowFull.width 3).1
          (cellAt cexFlowFull.height cexFlowFull.width 3).2) :=
  ⟨by decide, C7_buffersAligned cexFlowFull 3 (by decide)⟩

/-- C5: after the min-max normalization step every normalized magnitude
lies in [0, 1], and if the magnitude field is not constant then at
least one pixel attains 0 and at least one pixel attains 1. -/
theorem C5_normalizationBounds (f : FlowField)
    (hw : 1 ≤ f.width) (hh : 1 ≤ f.height) :
    (∀ y, y < f.height → ∀ x, x < f.width →
      0 ≤ normalizeMinMax (magnitudeGrid f) f.width f.height y x ∧
        normalizeMinMax (magnitudeGrid f) f.width f.height y x ≤ 1) ∧
    ((∃ y, y < f.height ∧ ∃ x, x < f.width ∧
        ∃ y2, y2 < f.height ∧ ∃ x2, x2 < f.width ∧
          magnitudeGrid f y x ≠ magnitudeGrid f y2 x2) →
      (∃ y, y < f.height ∧ ∃ x, x < f.width ∧
        normalizeMinMax (magnitudeGrid f) f.width f.height y x = 0) ∧
      (∃ y, y < f.height ∧ ∃ x, x < f.width ∧
        normalizeMinMax (magnitudeGrid f) f.width f.height y x = 1)) := by
  by_cases hlt : gridMin (magnitudeGrid f) f.width f.height
      < gridMax (magnitudeGrid f) f.width f.height
  · have hd : 0 < gridMax (magnitudeGrid f) f.width f.height
        - gridMin (magnitudeGrid f) f.width f.height := sub_pos.mpr hlt
    constructor
    · intro y hy x hx
      rw [normalize_eq_of_lt hlt y x]
      constructor
      · apply div_nonneg _ (le_of_lt hd)
        have := gridMin_le (magnitudeGrid f) hy hx
        linarith
      · rw [div_le_one hd]
        have := le_gridMax (magnitudeGrid f) hy hx
        linarith
    · intro _
      constructor
      · obtain ⟨y, hy, x, hx, hv⟩ := gridMin_attained (magnitudeGrid f) hw hh
        refine ⟨y, hy, x, hx, ?_⟩
        rw [normalize_eq_of_lt hlt y x, hv]
        simp
      · obtain ⟨y, hy, x, hx, hv⟩ := gridMax_attained (magnitudeGrid f) hw hh
        refine ⟨y, hy, x, hx, ?_⟩
        rw [normalize_eq_of_lt hlt y x, hv]
        exact div_self (ne_of_gt hd)
  · constructor
    · intro y hy x hx
      rw [normalize_eq_of_const hlt y x]
      norm_num
    · intro hnc
      exfalso
      obtain ⟨y, hy, x, hx, y2, hy2, x2, hx2, hne⟩ := hnc
      have heq : gridMin (magnitudeGrid f) f.width f.height
          = gridMax (magnitudeGrid f) f.width f.height :=
        le_antisymm (gridMin_le_gridMax _ hw hh) (not_lt.mp hlt)
      have hval : ∀ a b, a < f.height → b < f.width →
          magnitudeGrid f a b = gridMin (magnitudeGrid f) f.width f.height := by
        intro a b ha hb
        apply le_antisymm
        · rw [heq]
          exact le_gridMax _ ha hb
        · exact gridMin_le _ ha hb
      exact hne (by rw [hval y x hy hx, hval y2 x2 hy2 hx2])

/-- Witness for C5 on the concrete 2×4 flow field, where the magnitude
field takes both the value 0 and the value 1. -/
theorem C5_normalizationBounds_witness :
    ((1:ℕ) ≤ cexFlowFull.width ∧ (1:ℕ) ≤ cexFlowFull.height) ∧
    ((∀ y, y < cexFlowFull.height → ∀ x, x < cexFlowFull.width →
      0 ≤ normalizeMinMax (magnitudeGrid cexFlowFull)
            cexFlowFull.width cexFlowFull.height y x ∧
        normalizeMinMax (magnitudeGrid cexFlowFull)
            cexFlowFull.width cexFlowFull.height y x ≤ 1) ∧
    ((∃ y, y < cexFlowFull.height ∧ ∃ x, x < cexFlowFull.width ∧
        ∃ y2, y2 < cexFlowFull.height ∧ ∃ x2, x2 < cexFlowFull.width ∧
          magnitudeGrid cexFlowFull y x ≠ magnitudeGrid cexFlowFull y2 x2) →
      (∃ y, y < cexFlowFull.height ∧ ∃ x, x < cexFlowFull.width ∧
        normalizeMinMax (magnitudeGrid cexFlowFull)
          cexFlowFull.width cexFlowFull.height y x = 0) ∧
      (∃ y, y < cexFlowFull.height ∧ ∃ x, x < cexFlowFull.width ∧
        normalizeMinMax (magnitudeGrid cexFlowFull)
          cexFlowFull.width cexFlowFull.height y x = 1))) :=
  ⟨⟨by decide, by decide⟩,
    C5_normalizationBounds cexFlowFull (by decide) (by decide)⟩

/-- The flow field produced by the zero estimator has zero magnitude
everywhere (used to discharge the constancy hypothesis of C6's
witness). -/
theorem zeroMag (y x : ℕ) :
    magnitudeGrid (flowFullOf zeroEst cexPrev cexPrev 2 2) y x = 0 := by
  have hfx : (flowFullOf zeroEst cexPrev cexPrev 2 2).fx y x = 0 := by
    simp [flowFullOf, flowSmallOf, zeroEst, resizeBilinear, resize1]
  have hfy : (flowFullOf zeroEst cexPrev cexPrev 2 2).fy y x = 0 := by
    simp [flowFullOf, flowSmallOf, zeroEst, resizeBilinear, resize1]
  show qsqrt ((flowFullOf zeroEst cexPrev cexPrev 2 2).fx y x
      * (flowFullOf zeroEst cexPrev cexPrev 2 2).fx y x
      + (flowFullOf zeroEst cexPrev cexPrev 2 2).fy y x
      * (flowFullOf zeroEst cexPrev cexPrev 2 2).fy y x) = 0
  rw [hfx, hfy]
  norm_num [qsqrt]

/-- C6: when the magnitude field is constant (observed max equals min,
e.g. an all-zero flow), the guarded normalization takes its `scale = 0`
branch — no division is performed — and every pixel of the returned
visualization is black: value channel 0 and bytes (B, G, R, A) =
(0, 0, 0, 255). -/
theorem C6_constantBlack (est : Estimator) (p q : Image) (w h : ℕ)
    (hw : 1 ≤ w) (hh : 1 ≤ h)
    (hconst : ∀ y, y < h → ∀ x, x < w →
      magnitudeGrid (flowFullOf est p q w h) y x
        = magnitudeGrid (flowFullOf est p q w h) 0 0)
    (y x : ℕ) (hy : y < h) (hx : x < w) :
    normalizeMinMax (magnitudeGrid (flowFullOf est p q w h)) w h y x = 0 ∧
    ((getOpticalFlowImage est p q w h).bytes.drop (4 * (y * w + x))).take 4
      = [0, 0, 0, 255] := by
  have hmin : gridMin (magnitudeGrid (flowFullOf est p q w h)) w h
      = magnitudeGrid (flowFullOf est p q w h) 0 0 := gridMin_const hconst
  have hmax : gridMax (magnitudeGrid (flowFullOf est p q w h)) w h
      = magnitudeGrid (flowFullOf est p q w h) 0 0 := gridMax_const hconst
  have hnlt : ¬ gridMin (magnitudeGrid (flowFullOf est p q w h)) w h
      < gridMax (magnitudeGrid (flowFullOf est p q w h)) w h := by
    rw [hmin, hmax]
    exact lt_irrefl _
  have hN : normalizeMinMax (magnitudeGrid (flowFullOf est p q w h)) w h y x = 0 :=
    normalize_eq_of_const hnlt y x
  refine ⟨hN, ?_⟩
  have hs := visualization_slice (flowFullOf est p q w h) y x hy hx
  rw [show (flowFullOf est p q w h).width = w from rfl,
    show (flowFullOf est p q w h).height = h from rfl] at hs
  show ((visualizationOfFlow (flowFullOf est p q w h)).drop
      (4 * (y * w + x))).take 4 = [0, 0, 0, 255]
  rw [hs, hN, pixelBGRA_v0]

/-- Witness for C6: the zero estimator on a 2×2 frame pair gives a
constant (all-zero) magnitude field and a black pixel. -/
theorem C6_constantBlack_witness :
    normalizeMinMax (magnitudeGrid (flowFullOf zeroEst cexPrev cexPrev 2 2))
        2 2 0 0 = 0 ∧
    ((getOpticalFlowImage zeroEst cexPrev cexPrev 2 2).bytes.drop
        (4 * (0 * 2 + 0))).take 4 = [0, 0, 0, 255] :=
  C6_constantBlack zeroEst cexPrev cexPrev 2 2 (by norm_num) (by norm_num)
    (fun y _ x _ => by rw [zeroMag, zeroMag]) 0 0 (by norm_num) (by norm_num)

/-- C8: the pipeline always downsamples both frames to the integer
halves w/2 × h/2, runs the estimator at that reduced size, and resizes
the flow field back to the full w × h resolution before the polar
decomposition and visualization steps; the emitted buffer covers all
w × h pixels. -/
theorem C8_resolutionInvariants (est : Estimator) (p q : Image) (w h : ℕ) :
    (flowSmallOf est p q w h).width = w / 2 ∧
    (flowSmallOf est p q w h).height = h / 2 ∧
    flowSmallOf est p q w h
      = ⟨w / 2, h / 2,
          (est (downImage p (w / 2) (h / 2)) (downImage q (w / 2) (h / 2))).1,
          (est (downImage p (w / 2) (h / 2)) (downImage q (w / 2) (h / 2))).2⟩ ∧
    (downImage p (w / 2) (h / 2)).width = w / 2 ∧
    (downImage p (w / 2) (h / 2)).height = h / 2 ∧
    (flowFullOf est p q w h).width = w ∧
    (flowFullOf est p q w h).height = h ∧
    flowFullOf est p q w h
      = ⟨w, h,
          resizeBilinear (flowSmallOf est p q w h).fx (w / 2) (h / 2) w h,
          resizeBilinear (flowSmallOf est p q w h).fy (w / 2) (h / 2) w h⟩ ∧
    (getOpticalFlowImage est p q w h).bytes
      = visualizationOfFlow (flowFullOf est p q w h) ∧
    (getOpticalFlowImage est p q w h).bytes.length = w * h * 4 := by
  refine ⟨rfl, rfl, rfl, rfl, rfl, rfl, rfl, rfl, rfl, ?_⟩
  show (visualizationOfFlow (flowFullOf est p q w h)).length = w * h * 4
  rw [visualization_length]
  show h * (w * 4) = w * h * 4
  ring

/-- C9 (code bug): on the single execution path of
`getOpticalFlowImage` every borrowed buffer is acquired once and
released exactly once — but the borrowed byte arrays ARE accessed after
their release: lines 60–61 (`resize(img1, …)`, `resize(img2, …)`) read
the pixel data wrapped at lines 51–52 after the arrays were released at
lines 55–56, so the scan for accesses after release fails. -/
theorem C9_useAfterRelease :
    (∀ b : BufId, acquireCount jniTrace b = 1 ∧ releaseCount jniTrace b = 1) ∧
    noAccessAfterRelease (fun _ => false) jniTrace = false := by
  constructor
  · intro b
    cases b <;> exact ⟨by decide, by decide⟩
  · decide

/-- C10: the fourth (alpha) byte of every 4-byte pixel of the returned
buffer equals 255, regardless of the computed flow. -/
theorem C10_alphaOpaque (est : Estimator) (p q : Image) (w h k : ℕ)
    (hk : k < w * h) :
    (getOpticalFlowImage est p q w h).bytes[4 * k + 3]? = some 255 := by
  have hW : 0 < w := by
    rcases Nat.eq_zero_or_pos w with h0 | h0
    · rw [h0] at hk
      simp at hk
    · exact h0
  have hx : k % w < w := Nat.mod_lt _ hW
  have hyd : k / w < h := by
    rw [Nat.div_lt_iff_lt_mul hW]
    calc k < w * h := hk
      _ = h * w := Nat.mul_comm _ _
  have hs := visualization_slice (flowFullOf est p q w h) (k / w) (k % w) hyd hx
  rw [show (flowFullOf est p q w h).width = w from rfl,
    show (flowFullOf est p q w h).height = h from rfl] at hs
  have hk4 : 4 * (k / w * w + k % w) = 4 * k := by
    rw [show k / w * w + k % w = k from by
      rw [Nat.mul_comm]
      exact Nat.div_add_mod k w]
  rw [hk4] at hs
  have h1 : (getOpticalFlowImage est p q w h).bytes[4 * k + 3]?
      = (((getOpticalFlowImage est p q w h).bytes.drop (4 * k)).take 4)[3]? := by
    rw [List.getElem?_take, if_pos (by norm_num), List.getElem?_drop]
  rw [h1]
  show (((visualizationOfFlow (flowFullOf est p q w h)).drop (4 * k)).take 4)[3]?
      = some 255
  rw [hs]
  rfl

/-- Witness for C10 at pixel index k = 0 of the concrete run. -/
theorem C10_alphaOpaque_witness :
    ((0:ℕ) < 2 * 4) ∧
    (getOpticalFlowImage cexEst cexPrev cexPrev 2 4).bytes[4 * 0 + 3]?
      = some 255 :=
  ⟨by decide, C10_alphaOpaque cexEst cexPrev cexPrev 2 4 0 (by decide)⟩

/-- C1 (amended): for every frame pair the returned buffer has length
w×h×4 and each pixel is the HSV-to-RGB conversion of (H = flow angle in
degrees from cartesian-to-polar, S = 1, V = per-frame
min-max-normalized magnitude) of the upsampled flow field, scaled to
8 bits — but the bytes are emitted in BGRA channel order with the BLUE
byte first (the code converts with COLOR_HSV2BGR and COLOR_BGR2BGRA),
not in RGBA order with the red byte first as originally claimed. -/
theorem C1_bytesSpec (est : Estimator) (p q : Image) (w h y x : ℕ)
    (hy : y < h) (hx : x < w) :
    (getOpticalFlowImage est p q w h).bytes.length = w * h * 4 ∧
    ((getOpticalFlowImage est p q w h).bytes.drop (4 * (y * w + x))).take 4
      = pixelBGRA (angleGrid (flowFullOf est p q w h) y x) 1
          (normalizeMinMax (magnitudeGrid (flowFullOf est p q w h)) w h y x) := by
  constructor
  · show (visualizationOfFlow (flowFullOf est p q w h)).length = w * h * 4
    rw [visualization_length]
    show h * (w * 4) = w * h * 4
    ring
  · have hs := visualization_slice (flowFullOf est p q w h) y x hy hx
    rw [show (flowFullOf est p q w h).width = w from rfl,
      show (flowFullOf est p q w h).height = h from rfl] at hs
    exact hs

/-- Witness for C1's amended theorem at pixel (0, 0) of the concrete
2×4 run. -/
theorem C1_bytesSpec_witness :
    ((0:ℕ) < 4 ∧ (0:ℕ) < 2) ∧
    ((getOpticalFlowImage cexEst cexPrev cexPrev 2 4).bytes.length = 2 * 4 * 4 ∧
      ((getOpticalFlowImage cexEst cexPrev cexPrev 2 4).bytes.drop
          (4 * (0 * 2 + 0))).take 4
        = pixelBGRA (angleGrid (flowFullOf cexEst cexPrev cexPrev 2 4) 0 0) 1
            (normalizeMinMax
              (magnitudeGrid (flowFullOf cexEst cexPrev cexPrev 2 4)) 2 4 0 0)) :=
  ⟨⟨by norm_num, by norm_num⟩,
    C1_bytesSpec cexEst cexPrev cexPrev 2 4 0 0 (by norm_num) (by norm_num)⟩

/-- C1 counterexample: at this concrete 2×4 input the strongest flow
pixel points right, so its HSV triple is (0°, 1, 1) — pure red — and
the code emits the bytes 0,0,255,255 (blue byte first), while the
claimed RGBA red-first encoding of the same HSV triple would be
255,0,0,255. -/
theorem C1_notRGBA :
    ((getOpticalFlowImage cexEst cexPrev cexPrev 2 4).bytes.drop
        (4 * (0 * 2 + 0))).take 4 = [0, 0, 255, 255] ∧
    rgbaPixelSpec (angleGrid cexFlowFull 0 0) 1
        (normalizeMinMax (magnitudeGrid cexFlowFull) 2 4 0 0)
      = [255, 0, 0, 255] ∧
    ([0, 0, 255, 255] : List ℕ) ≠ [255, 0, 0, 255] := by
  refine ⟨?_, ?_, by decide⟩
  · have hs := visualization_slice cexFlowFull 0 0 (by decide) (by decide)
    rw [show cexFlowFull.width = 2 from rfl,
      show cexFlowFull.height = 4 from rfl] at hs
    show ((visualizationOfFlow cexFlowFull).drop (4 * (0 * 2 + 0))).take 4
        = [0, 0, 255, 255]
    rw [hs, cexAngle00, cexNorm00, pixel_red]
  · rw [cexAngle00, cexNorm00, pixel_red_rgba]

end DPShooter
